import Mathlib

/-!
Verification of the real-time market-data aggregation pipeline
(`src/app_core`): the timeframe aggregator (candle bucketing, VWAP,
finalization), the publish/subscribe bus, the connection manager, the
exchange adapters' historical-fetch guards, and the persistent state
manager.  Python `Decimal` values are modelled as rationals (`ℚ`);
timestamps are microseconds since the Unix epoch; fixed-8-digit decimal
rendering is modelled as a scaled integer.
-/

namespace RTApp

/-- A Python exception value, identified by its class name and message. -/
structure PyExc where
  name : String
  msg : String
deriving Repr, DecidableEq

/-- Model of Python's `int()` on timeframe prefixes: an optional sign
followed by a nonempty run of ASCII digits.  (Python's `int()` also strips
surrounding whitespace and allows underscore separators; the timeframe
labels of this repository never use those forms.) -/
def pyIntParse (s : String) : Option Int :=
  let core : List Char → Option Nat := fun ds =>
    if ds = [] ∨ ¬ ds.all Char.isDigit then none
    else some (ds.foldl (fun acc c => 10 * acc + (c.toNat - 48)) 0)
  match s.data with
  | '+' :: rest => (core rest).map Int.ofNat
  | '-' :: rest => (core rest).map (fun n => -(Int.ofNat n))
  | ds => (core ds).map Int.ofNat

/-- A `datetime.timedelta`, stored as a whole number of microseconds. -/
structure Timedelta where
  us : Int
deriving Repr, DecidableEq

/-- Embedding of `TimeFrameAggregator._parse_timeframe`
(`src/app_core/analytics/aggregator.py` lines 31-40): take the last
character as the unit, `int()`-parse the prefix, and map `m`/`h`/`d` to a
`timedelta`; any other unit raises `ValueError("Invalid timeframe: ...")`.
Indexing `tf_str[-1]` on an empty string raises `IndexError`. -/
def parse_timeframe (tf : String) : Except PyExc Timedelta :=
  match tf.data.getLast? with
  | none => .error ⟨"IndexError", "string index out of range"⟩
  | some unit =>
    match pyIntParse (String.mk tf.data.dropLast) with
    | none => .error ⟨"ValueError",
        "invalid literal for int() with base 10: " ++ String.mk tf.data.dropLast⟩
    | some value =>
      if unit = 'm' then .ok ⟨value * 60000000⟩
      else if unit = 'h' then .ok ⟨value * 3600000000⟩
      else if unit = 'd' then .ok ⟨value * 86400000000⟩
      else .error ⟨"ValueError", "Invalid timeframe: " ++ tf⟩

/-- A normalized trade tick as seen by `TimeFrameAggregator.add_trade`:
exchange timestamp (microseconds since the Unix epoch, UTC), price and
size as exact decimals. -/
structure Trade where
  ts : Nat
  price : ℚ
  size : ℚ
deriving Repr, DecidableEq

/-- State of one `TimeFrameAggregator`.  The source initialises
`low_price` to `Decimal('Infinity')` and `high_price`/`last_price`/
`open_price` to `Decimal(0)`; all four are overwritten by
`_start_new_candle` before any read, because `current_candle_ts` starts
as `None` and the first `add_trade` call therefore starts a candle.  The
dead initial value of `low_price` is modelled as 0. -/
structure AggState where
  symbol : String
  timeframeStr : String
  deltaUs : Nat
  curTs : Option Nat
  trades : List (ℚ × ℚ)
  lastP : ℚ
  openP : ℚ
  highP : ℚ
  lowP : ℚ
deriving Repr, DecidableEq

/-- The state of a freshly constructed `TimeFrameAggregator`. -/
def initState (symbol timeframeStr : String) (deltaUs : Nat) : AggState :=
  { symbol := symbol, timeframeStr := timeframeStr, deltaUs := deltaUs,
    curTs := none, trades := [], lastP := 0, openP := 0, highP := 0, lowP := 0 }

/-- Embedding of `TimeFrameAggregator.__init__`: parse the timeframe
label and build the fresh state; a parse failure propagates, so
construction fails fast.  (Parsed durations are positive for every label
the application uses, so `Int.toNat` is the identity there.) -/
def TimeFrameAggregator.init (symbol timeframeStr : String) :
    Except PyExc AggState :=
  (parse_timeframe timeframeStr).map fun d =>
    initState symbol timeframeStr d.us.toNat

/-- Embedding of the bucket-start truncation performed by
`_start_new_candle` (lines 62-69 of `aggregator.py`): subtract
`timedelta(minutes = ts.minute % (delta.total_seconds() / 60),
seconds = ts.second, microseconds = ts.microsecond)` from the trade
timestamp.  Timestamps are microseconds since the epoch, so
`ts.minute = ts / 60000000 % 60`, `ts.second = ts / 1000000 % 60`,
`ts.microsecond = ts % 1000000`. -/
def truncTs (deltaUs ts : Nat) : Nat :=
  ts - (60000000 * (ts / 60000000 % 60 % (deltaUs / 60000000))
        + 1000000 * (ts / 1000000 % 60) + ts % 1000000)

/-- The epoch-aligned bucket start the specification describes: the trade
timestamp truncated down to the nearest multiple of the timeframe
duration. -/
def epochAlignedStart (deltaUs ts : Nat) : Nat := deltaUs * (ts / deltaUs)

/-- Embedding of `_start_new_candle`: set the candle start to the
truncated timestamp, clear the trade set and seed open/high/low with the
trade price. -/
def startNewCandle (s : AggState) (ts : Nat) (price : ℚ) : AggState :=
  { s with curTs := some (truncTs s.deltaUs ts), trades := [],
           openP := price, highP := price, lowP := price }

/-- Round a rational to the nearest integer, ties to even — the rounding
used by Python's fixed-point formatting of `Decimal` values. -/
def roundHalfEven (x : ℚ) : ℤ :=
  if x - (⌊x⌋ : ℚ) < 1/2 then ⌊x⌋
  else if (1 : ℚ)/2 < x - (⌊x⌋ : ℚ) then ⌊x⌋ + 1
  else if ⌊x⌋ % 2 = 0 then ⌊x⌋ else ⌊x⌋ + 1

/-- Fixed-point rendering with 8 fractional digits (`f"{x:.8f}"`),
modelled as the rendered value scaled by `10^8`. -/
def render8 (q : ℚ) : ℤ := roundHalfEven (q * 100000000)

/-- Rounding of an exact operation result to the `Decimal` context of
`aggregator.py` line 11: `getcontext().prec = 18` with the default
`ROUND_HALF_EVEN`.  A nonzero value is scaled so its coefficient lies in
`[10^17, 10^18)`, rounded half-even to an integer coefficient, and
scaled back; values already expressible with at most 18 significant
digits pass through unchanged, as in `Decimal`. -/
def decRound18 (q : ℚ) : ℚ :=
  if q = 0 then 0
  else (roundHalfEven (q * (10 : ℚ) ^ ((17 : ℤ) - Int.log 10 |q|)) : ℚ)
        * (10 : ℚ) ^ (Int.log 10 |q| - (17 : ℤ))

/-- A context multiplication `Decimal.__mul__`: the exact product rounded
to 18 significant digits. -/
def decMul (a b : ℚ) : ℚ := decRound18 (a * b)

/-- A context addition `Decimal.__add__`: the exact sum rounded to 18
significant digits. -/
def decAdd (a b : ℚ) : ℚ := decRound18 (a + b)

/-- A context division `Decimal.__truediv__`: the exact quotient rounded
to 18 significant digits. -/
def decDiv (a b : ℚ) : ℚ := decRound18 (a / b)

/-- `np.sum` over an `object` array of `Decimal`s: `np.add.reduce`, a
left fold that starts from the first element (no addition is performed
for a singleton) and rounds every partial sum to the context precision;
the sum of an empty array is 0. -/
def decSumList (l : List ℚ) : ℚ :=
  match l with
  | [] => 0
  | x :: xs => xs.foldl decAdd x

/-- An `AggregatedDataPoint` as published by
`_finalize_and_publish_candle`: all price/volume fields are decimal
strings fixed to 8 fractional digits, modelled as `10^8`-scaled
integers. -/
structure DataPoint where
  symbol : String
  timeframe : String
  tsUtc : Nat
  vwap8 : ℤ
  vol8 : ℤ
  last8 : ℤ
  high8 : ℤ
  low8 : ℤ
  open8 : ℤ
deriving Repr, DecidableEq

/-- Total volume of a bucket: `np.sum(sizes)` over `Decimal`s, each
partial sum rounded to the 18-significant-digit context. -/
def sumSizes (trades : List (ℚ × ℚ)) : ℚ := decSumList (trades.map Prod.snd)

/-- Volume-weighted price numerator of a bucket:
`np.sum(prices * sizes)` over `Decimal`s — every elementwise product and
every partial sum rounded to the 18-significant-digit context. -/
def sumPriceSize (trades : List (ℚ × ℚ)) : ℚ :=
  decSumList (trades.map (fun pq => decMul pq.1 pq.2))

/-- The VWAP as the specification's words describe it (refinement
reference, not a source translation): the exact rational quotient
`Σ(price·size) / Σ(size)` with no intermediate rounding. -/
def specExactVwap (trades : List (ℚ × ℚ)) : ℚ :=
  ((trades.map (fun pq => pq.1 * pq.2)).sum) / ((trades.map Prod.snd).sum)

/-- Embedding of `_finalize_and_publish_candle` (lines 75-104 of
`aggregator.py`): return the published point, or `none` when the bucket
has no trades or zero total volume.  The sums and the division are
`Decimal` context arithmetic at 18 significant digits (`decSumList`,
`decDiv`); the stored last/high/low/open fields are exact `Decimal`s
untouched by context arithmetic. -/
def finalizeOpt (s : AggState) : Option DataPoint :=
  if s.trades = [] then none
  else if sumSizes s.trades = 0 then none
  else
    some { symbol := s.symbol, timeframe := s.timeframeStr,
           tsUtc := s.curTs.getD 0,
           vwap8 := render8 (decDiv (sumPriceSize s.trades) (sumSizes s.trades)),
           vol8 := render8 (sumSizes s.trades),
           last8 := render8 s.lastP, high8 := render8 s.highP,
           low8 := render8 s.lowP, open8 := render8 s.openP }

/-- The closing phase of `add_trade` (lines 56-60): append `(price,
size)` to the bucket's trade set and update the running last/high/low. -/
def appendTrade (s : AggState) (t : Trade) : AggState :=
  { s with trades := s.trades ++ [(t.price, t.size)], lastP := t.price,
           highP := max s.highP t.price, lowP := min s.lowP t.price }

/-- The rollover phase of `add_trade` (lines 51-54) followed by the
closing phase: if the trade timestamp is at or beyond the candle start
plus the timeframe duration, finalize and publish the current candle and
start a new one; then append the trade. -/
def stepCore (s1 : AggState) (t : Trade) : AggState × Option DataPoint :=
  if s1.curTs.getD 0 + s1.deltaUs ≤ t.ts then
    (appendTrade (startNewCandle s1 t.ts t.price) t, finalizeOpt s1)
  else (appendTrade s1 t, none)

/-- Embedding of `TimeFrameAggregator.add_trade` (lines 42-60): open a
candle if none is open, then run the rollover check and append the
trade.  Returns the new state and the published point, if any. -/
def step (s : AggState) (t : Trade) : AggState × Option DataPoint :=
  stepCore (if s.curTs = none then startNewCandle s t.ts t.price else s) t

/-- Run a sequence of trades through `add_trade`, collecting every
published point in order. -/
def runAgg (s : AggState) (ts : List Trade) : AggState × List DataPoint :=
  match ts with
  | [] => (s, [])
  | t :: rest =>
    let so := step s t
    let rec_ := runAgg so.1 rest
    (rec_.1, so.2.toList ++ rec_.2)

/-- An `asyncio.Queue`: bounded FIFO when `maxsize > 0`, unbounded when
`maxsize = 0` (the default of `asyncio.Queue()`). -/
structure PyQueue (α : Type) where
  maxsize : Nat
  items : List α
deriving Repr, DecidableEq

/-- The `asyncio.Queue.full()` predicate: never full when `maxsize = 0`. -/
def PyQueue.isFull {α : Type} (q : PyQueue α) : Bool :=
  decide (0 < q.maxsize) && decide (q.maxsize ≤ q.items.length)

/-- The `asyncio.Queue.put_nowait` operation: append when not full,
otherwise raise `QueueFull` (modelled as the unchanged queue paired with
`false`). -/
def PyQueue.putNowait {α : Type} (q : PyQueue α) (x : α) : PyQueue α × Bool :=
  if q.isFull then (q, false)
  else ({ q with items := q.items ++ [x] }, true)

/-- A `Publisher` (`src/app_core/services/publisher.py`): its set of
subscriber queues, modelled as a list (each element standing for one
registered queue object). -/
structure Publisher (α : Type) where
  subscribers : List (PyQueue α)
deriving Repr, DecidableEq

/-- Embedding of `Publisher.subscribe` (lines 10-14 of `publisher.py`):
register and return a fresh `asyncio.Queue()` — created with no
`maxsize` argument, hence `maxsize = 0`. -/
def Publisher.subscribe {α : Type} (p : Publisher α) :
    Publisher α × PyQueue α :=
  let queue : PyQueue α := { maxsize := 0, items := [] }
  ({ subscribers := p.subscribers ++ [queue] }, queue)

/-- Embedding of `Publisher.publish` (lines 20-28): `put_nowait` the
message into every subscriber queue, swallowing `QueueFull` (the message
is dropped for that subscriber only). -/
def Publisher.publish {α : Type} (p : Publisher α) (message : α) :
    Publisher α :=
  { subscribers := p.subscribers.map (fun q => (q.putNowait message).1) }

/-- Publish a whole list of messages in order. -/
def Publisher.publishAll {α : Type} (p : Publisher α) (msgs : List α) :
    Publisher α :=
  msgs.foldl Publisher.publish p

/-- State of the `ConnectionManager`
(`src/app_core/networking/adapters/manager.py`): the running adapter
tasks (by identity) and the currently active symbol. -/
structure ConnMgr where
  tasks : List Nat
  currentSymbol : Option String
deriving Repr, DecidableEq

/-- Observable lifecycle events of the connection manager. -/
inductive MgrEvent where
  | taskCancelled (id : Nat)
  | taskStarted (id : Nat)
deriving Repr, DecidableEq

/-- Embedding of `ConnectionManager.stop_all_connections` (lines 54-66):
cancel and await every task, clear the task list and the current
symbol; a no-op when no tasks are active. -/
def stopAllConnections (m : ConnMgr) : ConnMgr × List MgrEvent :=
  if m.tasks = [] then (m, [])
  else ({ tasks := [], currentSymbol := none },
        m.tasks.map MgrEvent.taskCancelled)

/-- The names present in `ADAPTER_MAP` (lines 16-24 of `manager.py`). -/
def adapterMapNames : List String :=
  ["Binance", "Bitget", "Bitstamp", "Bitvavo", "Coinbase Exchange",
   "Kraken", "OKX"]

/-- Embedding of `ConnectionManager.switch_symbol` (lines 34-52):
return immediately when the symbol is already active; otherwise stop all
connections, record the symbol, and start one task per configured
exchange found in `ADAPTER_MAP`.  `cfg` models
`config.exchange_integrations` and `fresh` supplies the identities of
newly created tasks. -/
def switchSymbol (cfg : String → List String) (m : ConnMgr)
    (symbol : String) (fresh : Nat) : ConnMgr × List MgrEvent :=
  if m.currentSymbol = some symbol then (m, [])
  else
    let stopped := stopAllConnections m
    let names := (cfg symbol).filter (fun n => n ∈ adapterMapNames)
    let newTasks := (List.range names.length).map (fun i => fresh + i)
    ({ tasks := stopped.1.tasks ++ newTasks, currentSymbol := some symbol },
     stopped.2 ++ newTasks.map MgrEvent.taskStarted)

/-- A historical OHLCV bar (`Candle`), already decoded from an exchange
response row; price fields are exact decimal strings, modelled as
rationals. -/
structure Candle where
  symbol : String
  timeframe : String
  openTimeUtc : Nat
  open_ : ℚ
  high : ℚ
  low : ℚ
  close : ℚ
  volume : ℚ
deriving Repr, DecidableEq

/-- A historical-fetch failure: the HTTP status error raised by
`response.raise_for_status()`. -/
inductive FetchError where
  | httpStatus (status : Nat)
deriving Repr, DecidableEq

/-- Model of `httpx.Response.raise_for_status()`: raise on any 4xx/5xx
status. -/
def raiseForStatus (status : Nat) : Except FetchError Unit :=
  if 400 ≤ status then .error (.httpStatus status) else .ok ()

/-- The `interval_map` of `KrakenAdapter.fetch_historical_data`
(lines 59-61 of `kraken.py`), in minutes. -/
def krakenIntervalMap (tf : String) : Option Nat :=
  [("1m", 1), ("5m", 5), ("15m", 15), ("30m", 30), ("1h", 60),
   ("4h", 240), ("1d", 1440), ("1w", 10080)].lookup tf

/-- The `bar_map` of `OKXAdapter.fetch_historical_data`
(lines 62-65 of `okx.py`). -/
def okxBarMap (tf : String) : Option String :=
  [("1m", "1m"), ("5m", "5m"), ("15m", "15m"), ("30m", "30m"),
   ("1h", "1H"), ("4h", "4H"), ("1d", "1D"), ("1w", "1W")].lookup tf

/-- The `granularity_map` of `CoinbaseAdapter.fetch_historical_data`
(lines 58-60 of `coinbase.py`), in seconds. -/
def coinbaseGranularityMap (tf : String) : Option Nat :=
  [("1m", 60), ("5m", 300), ("15m", 900), ("1h", 3600), ("4h", 14400),
   ("1d", 86400)].lookup tf

/-- The `step_map` of `BitstampAdapter.fetch_historical_data`
(lines 60-62 of `bitstamp.py`), in seconds. -/
def bitstampStepMap (tf : String) : Option Nat :=
  [("1m", 60), ("5m", 300), ("15m", 900), ("30m", 1800), ("1h", 3600),
   ("4h", 14400), ("1d", 86400)].lookup tf

/-- The `granularity_map` of `BitgetAdapter.fetch_historical_data`
(lines 68-71 of `bitget.py`). -/
def bitgetGranularityMap (tf : String) : Option String :=
  [("1m", "60"), ("5m", "300"), ("15m", "900"), ("1h", "3600"),
   ("4h", "14400"), ("1d", "86400")].lookup tf

/-- Kraken's historical fetch: look the timeframe up in `interval_map`
and return `[]` on a miss (`if not interval: return []`); otherwise
issue the request, `raise_for_status`, and decode the rows.  The HTTP
exchange is abstracted as the response status plus the already decoded
rows. -/
def krakenFetchHistorical (tf : String) (status : Nat)
    (rows : List Candle) : Except FetchError (List Candle) :=
  match krakenIntervalMap tf with
  | none => .ok []
  | some _ => do
    let _ ← raiseForStatus status
    .ok rows

/-- OKX's historical fetch: same lookup-table guard as Kraken, over
`bar_map`. -/
def okxFetchHistorical (tf : String) (status : Nat)
    (rows : List Candle) : Except FetchError (List Candle) :=
  match okxBarMap tf with
  | none => .ok []
  | some _ => do
    let _ ← raiseForStatus status
    .ok rows

/-- Coinbase's historical fetch: lookup-table guard over
`granularity_map`. -/
def coinbaseFetchHistorical (tf : String) (status : Nat)
    (rows : List Candle) : Except FetchError (List Candle) :=
  match coinbaseGranularityMap tf with
  | none => .ok []
  | some _ => do
    let _ ← raiseForStatus status
    .ok rows

/-- Bitstamp's historical fetch: lookup-table guard over `step_map`. -/
def bitstampFetchHistorical (tf : String) (status : Nat)
    (rows : List Candle) : Except FetchError (List Candle) :=
  match bitstampStepMap tf with
  | none => .ok []
  | some _ => do
    let _ ← raiseForStatus status
    .ok rows

/-- Bitget's historical fetch: lookup-table guard over
`granularity_map`. -/
def bitgetFetchHistorical (tf : String) (status : Nat)
    (rows : List Candle) : Except FetchError (List Candle) :=
  match bitgetGranularityMap tf with
  | none => .ok []
  | some _ => do
    let _ ← raiseForStatus status
    .ok rows

/-- Binance's historical fetch (`binance.py` lines 51-80): the timeframe
label is passed straight through as the `interval` request parameter —
there is no lookup table and no unsupported-timeframe guard; any error
status raises via `raise_for_status`. -/
def binanceFetchHistorical (_tf : String) (status : Nat)
    (rows : List Candle) : Except FetchError (List Candle) := do
  let _ ← raiseForStatus status
  .ok rows

/-- Bitvavo's historical fetch (`bitvavo.py` lines 51-67): like Binance,
the timeframe label is passed straight through as the `interval`
parameter with no lookup table and no guard. -/
def bitvavoFetchHistorical (_tf : String) (status : Nat)
    (rows : List Candle) : Except FetchError (List Candle) := do
  let _ ← raiseForStatus status
  .ok rows

/-- A JSON field of the persisted state dict: absent, a string, or a
value of some non-string type. -/
inductive JsonField where
  | absent
  | strVal (s : String)
  | nonStr
deriving Repr, DecidableEq

/-- The decoded shape of the persisted state dict (pydantic ignores
unexpected extra keys under its default configuration). -/
structure RawDict where
  last_symbol : JsonField
  last_timeframe : JsonField
deriving Repr, DecidableEq

/-- What the state file's bytes decode to: the file is missing,
`orjson.loads` fails (`JSONDecodeError`), the document is not a dict
(so `AppState(**data)` raises `TypeError`), or it is a dict. -/
inductive FileContent where
  | missing
  | decodeError
  | nonDict
  | dict (d : RawDict)
deriving Repr, DecidableEq

/-- The persistent application state (`AppState` in
`src/app_core/state_manager.py`), with its built-in defaults. -/
structure AppState where
  last_symbol : String
  last_timeframe : String
deriving Repr, DecidableEq

/-- The default `AppState()`: `last_symbol = "BTC/USD"`,
`last_timeframe = "1h"`. -/
def defaultAppState : AppState :=
  { last_symbol := "BTC/USD", last_timeframe := "1h" }

/-- Pydantic validation of one optional string field: absent fields take
the default, strings pass through, anything else raises
`ValidationError` (a subclass of `ValueError`). -/
def validateStrField (f : JsonField) (dflt : String) :
    Except PyExc String :=
  match f with
  | .absent => .ok dflt
  | .strVal s => .ok s
  | .nonStr => .error ⟨"ValidationError", "Input should be a valid string"⟩

/-- The body of `StateManager._load_state` before its exception handler:
read and decode the file, then build `AppState(**data)`. -/
def loadStateBody (fc : FileContent) : Except PyExc AppState :=
  match fc with
  | .missing => .ok defaultAppState
  | .decodeError => .error ⟨"JSONDecodeError", "unexpected character"⟩
  | .nonDict => .error ⟨"TypeError",
      "argument of type mapping is required"⟩
  | .dict d => do
    let sym ← validateStrField d.last_symbol "BTC/USD"
    let tf ← validateStrField d.last_timeframe "1h"
    .ok { last_symbol := sym, last_timeframe := tf }

/-- The exception classes caught by `_load_state`'s handler:
`orjson.JSONDecodeError`, `TypeError`, `ValueError` — and pydantic's
`ValidationError`, which subclasses `ValueError`. -/
def caughtByLoadState (e : PyExc) : Bool :=
  e.name = "JSONDecodeError" || e.name = "TypeError" ||
  e.name = "ValueError" || e.name = "ValidationError"

/-- Embedding of `StateManager._load_state` (lines 16-26 of
`state_manager.py`): a missing file yields the defaults; a caught
decode/validation failure yields the defaults; any other exception
would propagate. -/
def load_state (fc : FileContent) : Except PyExc AppState :=
  match loadStateBody fc with
  | .ok st => .ok st
  | .error e => if caughtByLoadState e then .ok defaultAppState
                else .error e

/-- A state-file content is corrupt or malformed: undecodable bytes, a
non-dict document, or a dict with a non-string field. -/
def malformedContent (fc : FileContent) : Prop :=
  fc = .decodeError ∨ fc = .nonDict ∨
  ∃ d : RawDict, fc = .dict d ∧
    (d.last_symbol = .nonStr ∨ d.last_timeframe = .nonStr)

/-- The high/low invariant maintained by the aggregator state: once a
candle is open, `high` bounds `open`, the last trade price and every
trade price in the bucket from above, and `low` bounds the same
quantities from below; while no candle is open the trade set is empty. -/
def Inv (s : AggState) : Prop :=
  (s.curTs = none → s.trades = []) ∧
  (s.curTs ≠ none →
    s.openP ≤ s.highP ∧ s.lowP ≤ s.openP ∧
    (s.trades ≠ [] → s.lastP ≤ s.highP ∧ s.lowP ≤ s.lastP) ∧
    (∀ pq ∈ s.trades, pq.1 ≤ s.highP ∧ s.lowP ≤ pq.1))

/-- The high/low bounds of a published point, on its rendered fields:
`high_price` bounds `open_price` and `last_price` from above and
`low_price` bounds them from below. -/
def PubBounds (dp : DataPoint) : Prop :=
  dp.open8 ≤ dp.high8 ∧ dp.last8 ≤ dp.high8 ∧
  dp.low8 ≤ dp.open8 ∧ dp.low8 ≤ dp.last8

/-- C2 — the code evaluated at the failing input.  For timeframe "1d"
(duration 86400000000 μs), a trade at 1970-01-01T05:30:15Z
(19815000000 μs) opens a bucket at 05:00:00 (18000000000 μs), because
`_start_new_candle` only subtracts the minute remainder within the hour
plus seconds and microseconds; the epoch-aligned bucket start the claim
describes is midnight (0).  So the bucket opened by `add_trade` is not
`T` truncated to the nearest multiple of the timeframe duration. -/
theorem c2_day_bucket_not_epoch_aligned :
    (step (initState "BTC/USD" "1d" 86400000000)
      { ts := 19815000000, price := 50000, size := 1 }).1.curTs
        = some 18000000000 ∧
    epochAlignedStart 86400000000 19815000000 = 0 ∧
    (18000000000 : Nat) ≠ 0 := by
  refine ⟨rfl, by norm_num [epochAlignedStart], by norm_num⟩

/-- C3 — the code evaluated at the failing input.  `subscribe()` builds
`asyncio.Queue()` with `maxsize = 0`, i.e. an unbounded queue: after
publishing three messages with no reads, all three are pending (none is
dropped, exceeding any claimed capacity `C = 2`), and `put_nowait` still
succeeds on an arbitrarily long queue, so the `QueueFull` drop branch of
`publish` is unreachable. -/
theorem c3_subscriber_queue_unbounded :
    ((Publisher.subscribe { subscribers := ([] : List (PyQueue Nat)) }).1.publishAll
        [10, 20, 30]).subscribers
      = [{ maxsize := 0, items := [10, 20, 30] }] ∧
    (Publisher.subscribe { subscribers := ([] : List (PyQueue Nat)) }).2.maxsize = 0 ∧
    (PyQueue.putNowait { maxsize := 0, items := List.replicate 100 (0 : Nat) } 7).2
      = true := by
  refine ⟨rfl, rfl, ?_⟩
  simp [PyQueue.putNowait, PyQueue.isFull]

/-- C4: finalizing a bucket that contains no trades, or whose total
volume is zero, publishes nothing (`_finalize_and_publish_candle`
returns before constructing a point), and an `add_trade` rollover over
such a bucket publishes nothing either. -/
theorem c4_empty_or_zero_volume_bucket_never_published
    (s : AggState) (t : Trade)
    (h : s.trades = [] ∨ sumSizes s.trades = 0) :
    finalizeOpt s = none ∧ (step s t).2 = none := by
  have hfin : finalizeOpt s = none := by
    unfold finalizeOpt
    rcases h with h | h
    · simp [h]
    · by_cases he : s.trades = [] <;> simp [he, h]
  refine ⟨hfin, ?_⟩
  unfold step stepCore
  by_cases hc : s.curTs = none
  · rw [if_pos hc]
    by_cases hr : (startNewCandle s t.ts t.price).curTs.getD 0
        + (startNewCandle s t.ts t.price).deltaUs ≤ t.ts
    · rw [if_pos hr]
      show finalizeOpt (startNewCandle s t.ts t.price) = none
      unfold finalizeOpt startNewCandle
      simp
    · rw [if_neg hr]
  · rw [if_neg hc]
    by_cases hr : s.curTs.getD 0 + s.deltaUs ≤ t.ts
    · rw [if_pos hr]; exact hfin
    · rw [if_neg hr]

/-- C4 witness: the theorem applied to a freshly constructed aggregator
state (empty bucket) and a concrete trade. -/
theorem c4_witness :
    finalizeOpt (initState "BTC/USD" "1m" 60000000) = none ∧
    (step (initState "BTC/USD" "1m" 60000000)
      { ts := 0, price := 50000, size := 1 }).2 = none :=
  c4_empty_or_zero_volume_bucket_never_published
    (initState "BTC/USD" "1m" 60000000)
    { ts := 0, price := 50000, size := 1 } (Or.inl rfl)

/-- C7: `switch_symbol(S)` when `S` is already the active symbol returns
immediately: the manager state (including task identities) is unchanged
and no task is cancelled or started. -/
theorem c7_switch_symbol_idempotent
    (cfg : String → List String) (m : ConnMgr) (symbol : String)
    (fresh : Nat) (h : m.currentSymbol = some symbol) :
    switchSymbol cfg m symbol fresh = (m, []) := by
  unfold switchSymbol
  simp [h]

/-- C7 witness: a manager with one live task for "BTC/USD" asked to
switch to "BTC/USD" again keeps its task list and emits no events. -/
theorem c7_witness :
    switchSymbol (fun _ => ["Kraken"])
      { tasks := [5], currentSymbol := some "BTC/USD" } "BTC/USD" 9
      = ({ tasks := [5], currentSymbol := some "BTC/USD" }, []) :=
  c7_switch_symbol_idempotent (fun _ => ["Kraken"])
    { tasks := [5], currentSymbol := some "BTC/USD" } "BTC/USD" 9 rfl

/-- C5 counterexample: `BinanceAdapter.fetch_historical_data` has no
timeframe lookup table — the label goes straight into the request — so a
timeframe the exchange does not support yields an HTTP error status and
`raise_for_status()` raises, instead of an empty sequence. -/
theorem c5_counterexample_binance_raises :
    binanceFetchHistorical "30s" 400 [] = .error (.httpStatus 400) := rfl

/-- C5 (amended): the adapters that translate the timeframe through a
fixed lookup table (Kraken, OKX, Coinbase, Bitstamp, Bitget) return an
empty sequence on a missing entry, regardless of what the network would
have answered; Binance and Bitvavo pass the label through unchecked and
surface an HTTP error status as an error. -/
theorem c5_lookup_table_adapters_degrade_gracefully
    (tf : String) (status : Nat) (rows : List Candle)
    (hk : krakenIntervalMap tf = none) (ho : okxBarMap tf = none)
    (hc : coinbaseGranularityMap tf = none)
    (hs : bitstampStepMap tf = none)
    (hg : bitgetGranularityMap tf = none) :
    krakenFetchHistorical tf status rows = .ok [] ∧
    okxFetchHistorical tf status rows = .ok [] ∧
    coinbaseFetchHistorical tf status rows = .ok [] ∧
    bitstampFetchHistorical tf status rows = .ok [] ∧
    bitgetFetchHistorical tf status rows = .ok [] ∧
    binanceFetchHistorical tf 400 rows = .error (.httpStatus 400) ∧
    bitvavoFetchHistorical tf 400 rows = .error (.httpStatus 400) := by
  refine ⟨?_, ?_, ?_, ?_, ?_, ?_, ?_⟩
  · unfold krakenFetchHistorical; rw [hk]
  · unfold okxFetchHistorical; rw [ho]
  · unfold coinbaseFetchHistorical; rw [hc]
  · unfold bitstampFetchHistorical; rw [hs]
  · unfold bitgetFetchHistorical; rw [hg]
  · rfl
  · rfl

/-- C5 witness: the amended theorem applied to the timeframe "2w",
absent from every lookup table, with an error response status. -/
theorem c5_witness :
    krakenFetchHistorical "2w" 400 [] = .ok [] ∧
    okxFetchHistorical "2w" 400 [] = .ok [] ∧
    coinbaseFetchHistorical "2w" 400 [] = .ok [] ∧
    bitstampFetchHistorical "2w" 400 [] = .ok [] ∧
    bitgetFetchHistorical "2w" 400 [] = .ok [] ∧
    binanceFetchHistorical "2w" 400 [] = .error (.httpStatus 400) ∧
    bitvavoFetchHistorical "2w" 400 [] = .error (.httpStatus 400) :=
  c5_lookup_table_adapters_degrade_gracefully "2w" 400 []
    rfl rfl rfl rfl rfl

/-- C6 counterexample: constructing a `TimeFrameAggregator` with the
label "1w" fails with the builtin `ValueError` — the repository defines
no `InvalidTimeframeError` class, so the raised exception's class name
is not `InvalidTimeframeError`. -/
theorem c6_counterexample_valueerror_not_invalidtimeframeerror :
    TimeFrameAggregator.init "BTC/USD" "1w"
      = .error { name := "ValueError", msg := "Invalid timeframe: 1w" } ∧
    ({ name := "ValueError", msg := "Invalid timeframe: 1w" } : PyExc).name
      ≠ "InvalidTimeframeError" := by
  exact ⟨rfl, by decide⟩

/-- C6 (amended): a timeframe label with an integer-parseable prefix and
an unrecognized unit suffix fails fast at construction time with
`ValueError("Invalid timeframe: ...")` (there is no dedicated
`InvalidTimeframeError`), while "5m", "4h" and "1d" construct
aggregators with durations of 5 minutes, 4 hours and 1 day. -/
theorem c6_unrecognized_unit_fails_construction
    (tf : String) (unit : Char) (v : Int)
    (hu : tf.data.getLast? = some unit)
    (hv : pyIntParse (String.mk tf.data.dropLast) = some v)
    (hm : unit ≠ 'm') (hh : unit ≠ 'h') (hd : unit ≠ 'd') :
    TimeFrameAggregator.init "BTC/USD" tf
      = .error { name := "ValueError", msg := "Invalid timeframe: " ++ tf } ∧
    TimeFrameAggregator.init "BTC/USD" "5m"
      = .ok (initState "BTC/USD" "5m" 300000000) ∧
    TimeFrameAggregator.init "BTC/USD" "4h"
      = .ok (initState "BTC/USD" "4h" 14400000000) ∧
    TimeFrameAggregator.init "BTC/USD" "1d"
      = .ok (initState "BTC/USD" "1d" 86400000000) := by
  refine ⟨?_, rfl, rfl, rfl⟩
  unfold TimeFrameAggregator.init parse_timeframe
  rw [hu, hv]
  simp [hm, hh, hd]
  rfl

/-- C6 witness: the amended theorem applied to the label "1w". -/
theorem c6_witness :
    TimeFrameAggregator.init "BTC/USD" "1w"
      = .error { name := "ValueError", msg := "Invalid timeframe: " ++ "1w" } ∧
    TimeFrameAggregator.init "BTC/USD" "5m"
      = .ok (initState "BTC/USD" "5m" 300000000) ∧
    TimeFrameAggregator.init "BTC/USD" "4h"
      = .ok (initState "BTC/USD" "4h" 14400000000) ∧
    TimeFrameAggregator.init "BTC/USD" "1d"
      = .ok (initState "BTC/USD" "1d" 86400000000) :=
  c6_unrecognized_unit_fails_construction "1w" 'w' 1 rfl rfl
    (by decide) (by decide) (by decide)

/-- C9: loading persistent preferences never crashes — for every file
content `_load_state` returns a state rather than propagating an
exception — and a missing, undecodable, non-dict or invalidly typed
file yields exactly the built-in defaults
(`last_symbol = "BTC/USD"`, `last_timeframe = "1h"`). -/
theorem c9_load_state_silent_fallback
    (fc fc2 : FileContent)
    (h : fc = .missing ∨ malformedContent fc) :
    load_state fc = .ok defaultAppState ∧ (load_state fc2).isOk = true := by
  constructor
  · rcases h with h | h | h | ⟨d, hd, hf⟩
    · rw [h]; rfl
    · rw [h]; rfl
    · rw [h]; rfl
    · subst hd
      obtain ⟨ds, dt⟩ := d
      rcases hf with hf | hf
      · dsimp only at hf
        subst hf
        rfl
      · dsimp only at hf
        subst hf
        cases ds <;> rfl
  · cases fc2 with
    | missing => rfl
    | decodeError => rfl
    | nonDict => rfl
    | dict d =>
      obtain ⟨ds, dt⟩ := d
      cases ds <;> cases dt <;> rfl

/-- C9 witness: the theorem applied to a corrupt file (decode error) and
a well-formed file. -/
theorem c9_witness :
    load_state .decodeError = .ok defaultAppState ∧
    (load_state (.dict { last_symbol := .strVal "ETH/USD",
                         last_timeframe := .strVal "5m" })).isOk = true :=
  c9_load_state_silent_fallback .decodeError
    (.dict { last_symbol := .strVal "ETH/USD", last_timeframe := .strVal "5m" })
    (Or.inr (Or.inl rfl))

/-- C10: a `TimeFrameAggregator` construction succeeds exactly when the
label's last character is one of `m`, `h`, `d` and its prefix parses as
an integer; in particular "1w" and "30s" are rejected at construction —
even though the Kraken and OKX historical-fetch interval tables both
support "1w", so that timeframe is fetchable historically yet not
aggregatable live. -/
theorem c10_accepted_units_exactly_mhd :
    (∀ tf : String, (TimeFrameAggregator.init "BTC/USD" tf).isOk = true ↔
      ∃ unit : Char, ∃ v : Int,
        tf.data.getLast? = some unit ∧
        pyIntParse (String.mk tf.data.dropLast) = some v ∧
        (unit = 'm' ∨ unit = 'h' ∨ unit = 'd')) ∧
    (TimeFrameAggregator.init "BTC/USD" "1w").isOk = false ∧
    (TimeFrameAggregator.init "BTC/USD" "30s").isOk = false ∧
    krakenIntervalMap "1w" = some 10080 ∧
    okxBarMap "1w" = some "1W" := by
  refine ⟨?_, rfl, rfl, rfl, rfl⟩
  intro tf
  unfold TimeFrameAggregator.init parse_timeframe
  cases hu : tf.data.getLast? with
  | none => simp [Except.map, Except.isOk, Except.toBool]
  | some unit =>
    cases hv : pyIntParse (String.mk tf.data.dropLast) with
    | none => simp [Except.map, Except.isOk, Except.toBool]
    | some v =>
      by_cases hm : unit = 'm'
      · subst hm; simp [Except.map, Except.isOk, Except.toBool]
      · by_cases hh : unit = 'h'
        · subst hh; simp [Except.map, Except.isOk, Except.toBool]
        · by_cases hd : unit = 'd'
          · subst hd; simp [Except.map, Except.isOk, Except.toBool]
          · simp [hm, hh, hd, Except.map, Except.isOk, Except.toBool]

/-- C10 witness: the characterization applied to the accepted label
"5m". -/
theorem c10_witness :
    (TimeFrameAggregator.init "BTC/USD" "5m").isOk = true :=
  (c10_accepted_units_exactly_mhd.1 "5m").mpr
    ⟨'m', 5, rfl, rfl, Or.inl rfl⟩

theorem startNewCandle_curTs (s : AggState) (ts : Nat) (p : ℚ) :
    (startNewCandle s ts p).curTs = some (truncTs s.deltaUs ts) := rfl

theorem startNewCandle_deltaUs (s : AggState) (ts : Nat) (p : ℚ) :
    (startNewCandle s ts p).deltaUs = s.deltaUs := rfl

theorem startNewCandle_trades (s : AggState) (ts : Nat) (p : ℚ) :
    (startNewCandle s ts p).trades = [] := rfl

theorem appendTrade_curTs (s : AggState) (t : Trade) :
    (appendTrade s t).curTs = s.curTs := rfl

theorem appendTrade_deltaUs (s : AggState) (t : Trade) :
    (appendTrade s t).deltaUs = s.deltaUs := rfl

theorem appendTrade_trades (s : AggState) (t : Trade) :
    (appendTrade s t).trades = s.trades ++ [(t.price, t.size)] := rfl

/-- When a candle is open and the trade does not reach the rollover
boundary, `add_trade` just appends and publishes nothing. -/
theorem step_no_rollover (s : AggState) (t : Trade) (c : Nat)
    (hc : s.curTs = some c) (ht : t.ts < c + s.deltaUs) :
    step s t = (appendTrade s t, none) := by
  unfold step stepCore
  have hcc : ¬ s.curTs = none := by rw [hc]; exact fun h => Option.noConfusion h
  rw [if_neg hcc]
  have hlt : ¬ (s.curTs.getD 0 + s.deltaUs ≤ t.ts) := by
    rw [hc]
    simpa using not_le.mpr ht
  rw [if_neg hlt]

/-- When a candle is open and the trade reaches the rollover boundary,
`add_trade` publishes the finalized candle, starts a new one and
appends. -/
theorem step_rollover (s : AggState) (t : Trade) (c : Nat)
    (hc : s.curTs = some c) (hr : c + s.deltaUs ≤ t.ts) :
    step s t = (appendTrade (startNewCandle s t.ts t.price) t, finalizeOpt s) := by
  unfold step stepCore
  have hcc : ¬ s.curTs = none := by rw [hc]; exact fun h => Option.noConfusion h
  rw [if_neg hcc]
  have hle : s.curTs.getD 0 + s.deltaUs ≤ t.ts := by
    rw [hc]; simpa using hr
  rw [if_pos hle]

/-- When no candle is open and the freshly opened candle is not
immediately rolled over, `add_trade` starts a candle at the truncated
timestamp, appends and publishes nothing. -/
theorem step_fresh (s : AggState) (t : Trade) (hc : s.curTs = none)
    (hno : t.ts < truncTs s.deltaUs t.ts + s.deltaUs) :
    step s t = (appendTrade (startNewCandle s t.ts t.price) t, none) := by
  unfold step stepCore
  rw [if_pos hc]
  have hlt : ¬ ((startNewCandle s t.ts t.price).curTs.getD 0
      + (startNewCandle s t.ts t.price).deltaUs ≤ t.ts) := by
    rw [startNewCandle_curTs, startNewCandle_deltaUs]
    simpa using not_le.mpr hno
  rw [if_neg hlt]

theorem floor_le_roundHalfEven (x : ℚ) : ⌊x⌋ ≤ roundHalfEven x := by
  unfold roundHalfEven
  split
  · exact le_refl _
  · split
    · exact le_of_lt (lt_add_one _)
    · split
      · exact le_refl _
      · exact le_of_lt (lt_add_one _)

theorem roundHalfEven_le_floor_add_one (x : ℚ) :
    roundHalfEven x ≤ ⌊x⌋ + 1 := by
  unfold roundHalfEven
  split
  · exact le_of_lt (lt_add_one _)
  · split
    · exact le_refl _
    · split
      · exact le_of_lt (lt_add_one _)
      · exact le_refl _

theorem roundHalfEven_eq_floor (x : ℚ) (h : x - (⌊x⌋ : ℚ) < 1/2) :
    roundHalfEven x = ⌊x⌋ := by
  unfold roundHalfEven
  rw [if_pos h]

theorem roundHalfEven_eq_floor_add_one (x : ℚ)
    (h : (1 : ℚ)/2 < x - (⌊x⌋ : ℚ)) :
    roundHalfEven x = ⌊x⌋ + 1 := by
  unfold roundHalfEven
  rw [if_neg (not_lt.mpr (le_of_lt h)), if_pos h]

/-- Ties-to-even rounding is monotone. -/
theorem roundHalfEven_mono {x y : ℚ} (h : x ≤ y) :
    roundHalfEven x ≤ roundHalfEven y := by
  rcases lt_or_eq_of_le (Int.floor_le_floor h) with hlt | heq
  · have h1 := roundHalfEven_le_floor_add_one x
    have h2 := floor_le_roundHalfEven y
    omega
  · by_cases h1 : x - (⌊x⌋ : ℚ) < 1/2
    · rw [roundHalfEven_eq_floor x h1, heq]
      exact floor_le_roundHalfEven y
    · by_cases h2 : (1 : ℚ)/2 < x - (⌊x⌋ : ℚ)
      · have hfr : (⌊x⌋ : ℚ) = (⌊y⌋ : ℚ) := by exact_mod_cast heq
        have hy : (1 : ℚ)/2 < y - (⌊y⌋ : ℚ) := by
          rw [← hfr]; linarith
        rw [roundHalfEven_eq_floor_add_one x h2,
            roundHalfEven_eq_floor_add_one y hy, heq]
      · have hfr : (⌊x⌋ : ℚ) = (⌊y⌋ : ℚ) := by exact_mod_cast heq
        have hx2 : x - (⌊x⌋ : ℚ) = 1/2 :=
          le_antisymm (not_lt.mp h2) (not_lt.mp h1)
        by_cases h3 : (1 : ℚ)/2 < y - (⌊y⌋ : ℚ)
        · rw [roundHalfEven_eq_floor_add_one y h3, ← heq]
          exact roundHalfEven_le_floor_add_one x
        · have hy2 : y - (⌊y⌋ : ℚ) = 1/2 := by
            rw [← hfr]
            have : (1 : ℚ)/2 ≤ y - (⌊x⌋ : ℚ) := by linarith
            rw [← hfr] at h3
            linarith [not_lt.mp h3]
          have hxy : x = y := by
            rw [← hfr] at hy2
            linarith
          rw [hxy]

/-- Fixed-8-digit rendering is monotone. -/
theorem render8_mono {q r : ℚ} (h : q ≤ r) : render8 q ≤ render8 r :=
  roundHalfEven_mono (by nlinarith)

/-- A freshly constructed aggregator satisfies the invariant. -/
theorem inv_initState (sym tf : String) (d : Nat) :
    Inv (initState sym tf d) := by
  refine ⟨fun _ => rfl, fun h => absurd rfl h⟩

/-- Starting a candle with a trade and appending that same trade
establishes the invariant from scratch. -/
theorem inv_afterStart (s : AggState) (t : Trade) :
    Inv (appendTrade (startNewCandle s t.ts t.price) t) := by
  constructor
  · intro h
    rw [appendTrade_curTs, startNewCandle_curTs] at h
    exact Option.noConfusion h
  · intro _
    refine ⟨le_max_left _ _, min_le_left _ _,
      fun _ => ⟨le_max_right _ _, min_le_right _ _⟩, ?_⟩
    intro pq hpq
    rw [appendTrade_trades, startNewCandle_trades] at hpq
    simp only [List.nil_append, List.mem_singleton] at hpq
    subst hpq
    exact ⟨le_max_right _ _, min_le_right _ _⟩

/-- Appending a trade into an open candle preserves the invariant. -/
theorem inv_appendTrade (s : AggState) (t : Trade)
    (hne : s.curTs ≠ none) (hInv : Inv s) : Inv (appendTrade s t) := by
  obtain ⟨-, h2⟩ := hInv
  obtain ⟨ho, hl, -, hall⟩ := h2 hne
  constructor
  · intro h
    rw [appendTrade_curTs] at h
    exact absurd h hne
  · intro _
    refine ⟨le_trans ho (le_max_left _ _), le_trans (min_le_left _ _) hl,
      fun _ => ⟨le_max_right _ _, min_le_right _ _⟩, ?_⟩
    intro pq hpq
    rw [appendTrade_trades] at hpq
    rcases List.mem_append.mp hpq with hm | hm
    · obtain ⟨ha, hb⟩ := hall pq hm
      exact ⟨le_trans ha (le_max_left _ _), le_trans (min_le_left _ _) hb⟩
    · simp only [List.mem_singleton] at hm
      subst hm
      exact ⟨le_max_right _ _, min_le_right _ _⟩

/-- Every `add_trade` call preserves the invariant. -/
theorem inv_step (s : AggState) (t : Trade) (hInv : Inv s) :
    Inv (step s t).1 := by
  unfold step stepCore
  by_cases hc : s.curTs = none
  · rw [if_pos hc]
    split
    · exact inv_afterStart _ t
    · exact inv_afterStart s t
  · rw [if_neg hc]
    split
    · exact inv_afterStart s t
    · exact inv_appendTrade s t hc hInv

/-- Shape of a successful finalization: the published point renders the
bucket's VWAP, volume, last, high, low and open fields. -/
theorem finalizeOpt_eq (s : AggState) (hne : s.trades ≠ [])
    (hv : sumSizes s.trades ≠ 0) :
    finalizeOpt s = some {
      symbol := s.symbol, timeframe := s.timeframeStr,
      tsUtc := s.curTs.getD 0,
      vwap8 := render8 (decDiv (sumPriceSize s.trades) (sumSizes s.trades)),
      vol8 := render8 (sumSizes s.trades), last8 := render8 s.lastP,
      high8 := render8 s.highP, low8 := render8 s.lowP,
      open8 := render8 s.openP } := by
  unfold finalizeOpt
  rw [if_neg hne, if_neg hv]

/-- A point finalized from an invariant-satisfying state has its
rendered high above open, last and every bucket trade price, and its
rendered low below the same. -/
theorem finalize_pubBounds (s : AggState) (dp : DataPoint) (hInv : Inv s)
    (h : finalizeOpt s = some dp) :
    PubBounds dp ∧
    ∀ pq ∈ s.trades, render8 pq.1 ≤ dp.high8 ∧ dp.low8 ≤ render8 pq.1 := by
  by_cases hne : s.trades = []
  · unfold finalizeOpt at h
    rw [if_pos hne] at h
    exact Option.noConfusion h
  by_cases hv : sumSizes s.trades = 0
  · unfold finalizeOpt at h
    rw [if_neg hne, if_pos hv] at h
    exact Option.noConfusion h
  rw [finalizeOpt_eq s hne hv] at h
  injection h with h
  subst h
  have hcur : s.curTs ≠ none := fun hcc => hne (hInv.1 hcc)
  obtain ⟨ho, hl, hlast, hall⟩ := hInv.2 hcur
  refine ⟨⟨render8_mono ho, render8_mono (hlast hne).1,
    render8_mono hl, render8_mono (hlast hne).2⟩, ?_⟩
  intro pq hpq
  obtain ⟨ha, hb⟩ := hall pq hpq
  exact ⟨render8_mono ha, render8_mono hb⟩

/-- Any point published by an `add_trade` call from an
invariant-satisfying state satisfies the rendered bounds. -/
theorem step_pubBounds (s : AggState) (t : Trade) (dp : DataPoint)
    (hInv : Inv s) (h : (step s t).2 = some dp) : PubBounds dp := by
  unfold step stepCore at h
  by_cases hc : s.curTs = none
  · rw [if_pos hc] at h
    split at h
    · have hfin : finalizeOpt (startNewCandle s t.ts t.price) = none := by
        unfold finalizeOpt
        rw [if_pos (startNewCandle_trades s t.ts t.price)]
      simp only [hfin] at h
      exact Option.noConfusion h
    · exact Option.noConfusion h
  · rw [if_neg hc] at h
    split at h
    · exact (finalize_pubBounds s dp hInv h).1
    · exact Option.noConfusion h

/-- Running any trade list preserves the invariant and every published
point satisfies the rendered bounds. -/
theorem runAgg_inv (L : List Trade) (s : AggState) (hInv : Inv s) :
    Inv (runAgg s L).1 ∧ ∀ dp ∈ (runAgg s L).2, PubBounds dp := by
  induction L generalizing s with
  | nil =>
    refine ⟨hInv, ?_⟩
    intro dp hdp
    simp [runAgg] at hdp
  | cons t rest ih =>
    obtain ⟨ih1, ih2⟩ := ih (step s t).1 (inv_step s t hInv)
    constructor
    · exact ih1
    · intro dp hdp
      have hdp2 : dp ∈ (step s t).2.toList ++ (runAgg (step s t).1 rest).2 :=
        hdp
      rcases List.mem_append.mp hdp2 with hm | hm
      · cases ho : (step s t).2 with
        | none => rw [ho] at hm; exact absurd hm (by simp)
        | some dp0 =>
          rw [ho] at hm
          simp only [Option.toList_some, List.mem_singleton] at hm
          subst hm
          exact step_pubBounds s t dp hInv ho
      · exact ih2 dp hm

/-- Running a concatenation of trade lists runs them in sequence,
concatenating the published points. -/
theorem runAgg_append (A B : List Trade) (s : AggState) :
    runAgg s (A ++ B)
      = ((runAgg (runAgg s A).1 B).1,
         (runAgg s A).2 ++ (runAgg (runAgg s A).1 B).2) := by
  induction A generalizing s with
  | nil => simp [runAgg]
  | cons t rest ih =>
    simp only [List.cons_append, runAgg, List.append_eq]
    rw [ih (step s t).1]
    simp [List.append_assoc]

/-- Running trades that all stay strictly inside the open bucket only
accumulates them: the trade set extends by exactly those trades in
order, the candle start and duration are unchanged, and nothing is
published. -/
theorem runAgg_inBucket (L : List Trade) (s : AggState) (c : Nat)
    (hc : s.curTs = some c) (hin : ∀ t ∈ L, t.ts < c + s.deltaUs) :
    (runAgg s L).1.trades = s.trades ++ L.map (fun t => (t.price, t.size)) ∧
    (runAgg s L).1.curTs = some c ∧
    (runAgg s L).1.deltaUs = s.deltaUs ∧
    (runAgg s L).2 = [] := by
  induction L generalizing s with
  | nil => simp [runAgg, hc]
  | cons t rest ih =>
    have hstep := step_no_rollover s t c hc (hin t (List.mem_cons_self t rest))
    have hc2 : (appendTrade s t).curTs = some c := by
      rw [appendTrade_curTs, hc]
    have hin2 : ∀ u ∈ rest, u.ts < c + (appendTrade s t).deltaUs := by
      rw [appendTrade_deltaUs]
      exact fun u hu => hin u (List.mem_cons_of_mem t hu)
    obtain ⟨ih1, ih2, ih3, ih4⟩ := ih (appendTrade s t) hc2 hin2
    simp only [runAgg, hstep]
    refine ⟨?_, ih2, ?_, ?_⟩
    · rw [ih1, appendTrade_trades]
      simp [List.append_assoc]
    · rw [ih3, appendTrade_deltaUs]
    · simp [ih4]

/-- C8: after every sequence of `add_trade` calls on a freshly
constructed aggregator with at least one trade in the open bucket,
`high_price` is at least `open_price`, the last trade price, and every
trade price in the bucket, and `low_price` is at most the same
quantities; every published `AggregatedDataPoint` satisfies the rendered
high/low bounds on its own fields; and any point finalized from a state
reached by a run bounds every trade price of its bucket. -/
theorem c8_high_low_invariant (sym tf : String) (d : Nat) (L : List Trade) :
    ((runAgg (initState sym tf d) L).1.trades ≠ [] →
      (runAgg (initState sym tf d) L).1.openP
          ≤ (runAgg (initState sym tf d) L).1.highP ∧
      (runAgg (initState sym tf d) L).1.lastP
          ≤ (runAgg (initState sym tf d) L).1.highP ∧
      (∀ pq ∈ (runAgg (initState sym tf d) L).1.trades,
        pq.1 ≤ (runAgg (initState sym tf d) L).1.highP) ∧
      (runAgg (initState sym tf d) L).1.lowP
          ≤ (runAgg (initState sym tf d) L).1.openP ∧
      (runAgg (initState sym tf d) L).1.lowP
          ≤ (runAgg (initState sym tf d) L).1.lastP ∧
      (∀ pq ∈ (runAgg (initState sym tf d) L).1.trades,
        (runAgg (initState sym tf d) L).1.lowP ≤ pq.1)) ∧
    (∀ dp ∈ (runAgg (initState sym tf d) L).2, PubBounds dp) ∧
    (∀ (M : List Trade) (dp : DataPoint),
      finalizeOpt (runAgg (initState sym tf d) M).1 = some dp →
      ∀ pq ∈ (runAgg (initState sym tf d) M).1.trades,
        render8 pq.1 ≤ dp.high8 ∧ dp.low8 ≤ render8 pq.1) := by
  obtain ⟨h1, h2⟩ := runAgg_inv L (initState sym tf d) (inv_initState sym tf d)
  refine ⟨?_, h2, ?_⟩
  · intro hne
    have hcur : (runAgg (initState sym tf d) L).1.curTs ≠ none :=
      fun hcc => hne (h1.1 hcc)
    obtain ⟨ho, hl, hlast, hall⟩ := h1.2 hcur
    exact ⟨ho, (hlast hne).1, fun pq h => (hall pq h).1, hl,
      (hlast hne).2, fun pq h => (hall pq h).2⟩
  · intro M dp hf
    exact (finalize_pubBounds _ dp
      (runAgg_inv M (initState sym tf d) (inv_initState sym tf d)).1 hf).2

/-- C8 witness: one trade at price 3 into a fresh 1-minute aggregator;
the state's last price is bounded by its high, the finalized point's
rendered high bounds the bucket's only trade price, and its rendered low
is below it. -/
theorem c8_witness :
    (runAgg (initState "BTC/USD" "1m" 60000000)
        [{ ts := 0, price := 3, size := 1 }]).1.lastP
      ≤ (runAgg (initState "BTC/USD" "1m" 60000000)
        [{ ts := 0, price := 3, size := 1 }]).1.highP ∧
    render8 3 ≤ render8 ((runAgg (initState "BTC/USD" "1m" 60000000)
        [{ ts := 0, price := 3, size := 1 }]).1.highP) ∧
    render8 ((runAgg (initState "BTC/USD" "1m" 60000000)
        [{ ts := 0, price := 3, size := 1 }]).1.lowP) ≤ render8 3 := by
  have h := c8_high_low_invariant "BTC/USD" "1m" 60000000
    [{ ts := 0, price := 3, size := 1 }]
  have htr : (runAgg (initState "BTC/USD" "1m" 60000000)
      [{ ts := 0, price := 3, size := 1 }]).1.trades = [(3, 1)] := rfl
  have hne : (runAgg (initState "BTC/USD" "1m" 60000000)
      [{ ts := 0, price := 3, size := 1 }]).1.trades ≠ [] := by
    rw [htr]
    exact fun hx => List.noConfusion hx
  have hv : sumSizes (runAgg (initState "BTC/USD" "1m" 60000000)
      [{ ts := 0, price := 3, size := 1 }]).1.trades ≠ 0 := by
    rw [htr]
    norm_num [sumSizes, decSumList]
  have hmem : ((3 : ℚ), (1 : ℚ)) ∈ (runAgg (initState "BTC/USD" "1m" 60000000)
      [{ ts := 0, price := 3, size := 1 }]).1.trades := by
    rw [htr]
    exact List.mem_singleton.mpr rfl
  have h3 := h.2.2 [{ ts := 0, price := 3, size := 1 }] _
    (finalizeOpt_eq _ hne hv) (3, 1) hmem
  exact ⟨(h.1 hne).2.1, h3.1, h3.2⟩

theorem roundHalfEven_intCast (m : ℤ) : roundHalfEven (m : ℚ) = m := by
  unfold roundHalfEven
  rw [Int.floor_intCast]
  rw [if_pos (by norm_num)]

/-- A value expressible with at most 18 significant digits passes
through the context rounding unchanged, as in `Decimal`. -/
theorem decRound18_eq_self (m k : ℤ) (hm : m ≠ 0) (hlt : |m| < 10 ^ 18) :
    decRound18 ((m : ℚ) * (10 : ℚ) ^ k) = (m : ℚ) * (10 : ℚ) ^ k := by
  have hten : (10 : ℚ) ≠ 0 := by norm_num
  have htenpos : (0 : ℚ) < 10 := by norm_num
  have hq0 : (m : ℚ) * (10 : ℚ) ^ k ≠ 0 :=
    mul_ne_zero (Int.cast_ne_zero.mpr hm) (zpow_ne_zero k hten)
  have hqabs : (0 : ℚ) < |(m : ℚ) * (10 : ℚ) ^ k| := abs_pos.mpr hq0
  have hub : |(m : ℚ) * (10 : ℚ) ^ k| < ((10 : ℕ) : ℚ) ^ (k + 18) := by
    push_cast
    rw [abs_mul, abs_of_pos (zpow_pos htenpos k),
      zpow_add₀ hten, mul_comm ((10 : ℚ) ^ k)]
    refine mul_lt_mul_of_pos_right ?_ (zpow_pos htenpos k)
    rw [← Int.cast_abs]
    have h18 : ((10 : ℚ) : ℚ) ^ ((18 : ℕ) : ℤ) = (((10 : ℤ) ^ (18 : ℕ) : ℤ) : ℚ) := by
      rw [zpow_natCast]
      push_cast
      ring
    rw [show ((18 : ℤ)) = ((18 : ℕ) : ℤ) from rfl, h18]
    exact_mod_cast hlt
  have halog : Int.log 10 |(m : ℚ) * (10 : ℚ) ^ k| < k + 18 :=
    (Int.lt_zpow_iff_log_lt (by norm_num) hqabs).mp hub
  have hj : 0 ≤ k + 17 - Int.log 10 |(m : ℚ) * (10 : ℚ) ^ k| := by omega
  unfold decRound18
  rw [if_neg hq0]
  have key : ((m : ℚ) * (10 : ℚ) ^ k)
        * (10 : ℚ) ^ ((17 : ℤ) - Int.log 10 |(m : ℚ) * (10 : ℚ) ^ k|)
      = ((m * 10 ^ (k + 17 - Int.log 10 |(m : ℚ) * (10 : ℚ) ^ k|).toNat : ℤ) : ℚ) := by
    push_cast
    rw [← zpow_natCast (10 : ℚ)
        (k + 17 - Int.log 10 |(m : ℚ) * (10 : ℚ) ^ k|).toNat,
      Int.toNat_of_nonneg hj, mul_assoc, ← zpow_add₀ hten]
    rw [show k + ((17 : ℤ) - Int.log 10 |(m : ℚ) * (10 : ℚ) ^ k|)
        = k + 17 - Int.log 10 |(m : ℚ) * (10 : ℚ) ^ k| from by omega]
  rw [key, roundHalfEven_intCast]
  push_cast
  rw [← zpow_natCast (10 : ℚ)
      (k + 17 - Int.log 10 |(m : ℚ) * (10 : ℚ) ^ k|).toNat,
    Int.toNat_of_nonneg hj, mul_assoc, ← zpow_add₀ hten]
  rw [show k + 17 - Int.log 10 |(m : ℚ) * (10 : ℚ) ^ k|
      + (Int.log 10 |(m : ℚ) * (10 : ℚ) ^ k| - 17) = k from by omega]

/-- Context rounding is the identity on integers below `10^18`. -/
theorem decRound18_intCast (m : ℤ) (hm : m ≠ 0) (hlt : |m| < 10 ^ 18) :
    decRound18 (m : ℚ) = m := by
  have h := decRound18_eq_self m 0 hm hlt
  simpa using h

/-- Context rounding is the identity on `m / 10^n` for coefficients
below `10^18`. -/
theorem decRound18_int_div_pow (m : ℤ) (n : ℕ) (hm : m ≠ 0)
    (hlt : |m| < 10 ^ 18) :
    decRound18 ((m : ℚ) / 10 ^ n) = (m : ℚ) / 10 ^ n := by
  have h := decRound18_eq_self m (-(n : ℤ)) hm hlt
  rw [zpow_neg, zpow_natCast] at h
  rw [div_eq_mul_inv]
  exact h

/-- Pin down `Int.log 10` of a positive rational from its decade. -/
theorem int_log_ten_eq (q : ℚ) (a : ℤ) (hq : 0 < q)
    (h1 : (10 : ℚ) ^ a ≤ q) (h2 : q < (10 : ℚ) ^ (a + 1)) :
    Int.log 10 q = a := by
  have hle : a ≤ Int.log 10 q :=
    (Int.zpow_le_iff_le_log (by norm_num) hq).mp (by exact_mod_cast h1)
  have hlt : Int.log 10 q < a + 1 :=
    (Int.lt_zpow_iff_log_lt (by norm_num) hq).mp (by exact_mod_cast h2)
  omega

/-- Evaluate a context rounding that rounds down: for `q` in the decade
`[10^a, 10^(a+1))` whose scaled coefficient has floor `f` and fractional
part below one half, the rounding yields `f · 10^(a-17)`. -/
theorem decRound18_eval (q : ℚ) (a f : ℤ) (hq : 0 < q)
    (h1 : (10 : ℚ) ^ a ≤ q) (h2 : q < (10 : ℚ) ^ (a + 1))
    (hf : ⌊q * (10 : ℚ) ^ ((17 : ℤ) - a)⌋ = f)
    (hfr : q * (10 : ℚ) ^ ((17 : ℤ) - a) - (f : ℚ) < 1/2) :
    decRound18 q = (f : ℚ) * (10 : ℚ) ^ (a - (17 : ℤ)) := by
  have hlog : Int.log 10 |q| = a := by
    rw [abs_of_pos hq]
    exact int_log_ten_eq q a hq h1 h2
  unfold decRound18
  rw [if_neg (ne_of_gt hq), hlog]
  have hR : roundHalfEven (q * (10 : ℚ) ^ ((17 : ℤ) - a)) = f := by
    unfold roundHalfEven
    rw [hf]
    rw [if_pos hfr]
  rw [hR]

theorem decSumList_cons (x : ℚ) (xs : List ℚ) :
    decSumList (x :: xs) = xs.foldl decAdd x := rfl

theorem foldl_decAdd_cons (b x : ℚ) (xs : List ℚ) :
    List.foldl decAdd b (x :: xs) = List.foldl decAdd (decAdd b x) xs := rfl

theorem foldl_decAdd_nil (b : ℚ) : List.foldl decAdd b [] = b := rfl

theorem map_decMul_cons (p q : ℚ) (rest : List (ℚ × ℚ)) :
    List.map (fun pq => decMul pq.1 pq.2) ((p, q) :: rest)
      = decMul p q :: List.map (fun pq => decMul pq.1 pq.2) rest := rfl

theorem map_decMul_nil :
    List.map (fun pq : ℚ × ℚ => decMul pq.1 pq.2) [] = [] := rfl

theorem map_snd_cons (p q : ℚ) (rest : List (ℚ × ℚ)) :
    List.map Prod.snd ((p, q) :: rest) = q :: List.map Prod.snd rest := rfl

theorem map_snd_nil : List.map (Prod.snd : ℚ × ℚ → ℚ) [] = [] := rfl

theorem sumPriceSize_eq (l : List (ℚ × ℚ)) :
    sumPriceSize l = decSumList (l.map (fun pq => decMul pq.1 pq.2)) := rfl

theorem sumSizes_eq (l : List (ℚ × ℚ)) :
    sumSizes l = decSumList (l.map Prod.snd) := rfl

/-- C1 (amended): for any prior state whose bucket (if open) the first
trade rolls over, running a first trade that opens a bucket, further
trades inside that bucket, and a closing trade at or beyond the bucket
boundary, publishes as its last point a VWAP equal to
`Σ(price·size) / Σ(size)` over exactly the trades accepted into that
bucket — independent of any prior bucket's contents (no carry-over) —
computed in `Decimal` arithmetic at the context precision of 18
significant digits (each product, partial sum and the division rounded
half-even) and rendered with 8 fractional digits. -/
theorem c1_vwap_context_decimal
    (s0 : AggState) (t0 : Trade) (L : List Trade) (tEnd : Trade)
    (hstart : s0.curTs = none ∨
      (∃ c0 : Nat, s0.curTs = some c0 ∧ c0 + s0.deltaUs ≤ t0.ts))
    (hin : ∀ t ∈ t0 :: L, t.ts < truncTs s0.deltaUs t0.ts + s0.deltaUs)
    (hend : truncTs s0.deltaUs t0.ts + s0.deltaUs ≤ tEnd.ts)
    (hvol : sumSizes ((t0 :: L).map (fun t => (t.price, t.size))) ≠ 0) :
    ((runAgg s0 (t0 :: (L ++ [tEnd]))).2.getLast?).map DataPoint.vwap8
      = some (render8
          (decDiv (sumPriceSize ((t0 :: L).map (fun t => (t.price, t.size))))
            (sumSizes ((t0 :: L).map (fun t => (t.price, t.size)))))) := by
  obtain ⟨o, hstep0⟩ : ∃ o : Option DataPoint,
      step s0 t0 = (appendTrade (startNewCandle s0 t0.ts t0.price) t0, o) := by
    rcases hstart with hc | ⟨c0, hc0, hr0⟩
    · exact ⟨none, step_fresh s0 t0 hc (hin t0 (List.mem_cons_self t0 L))⟩
    · exact ⟨finalizeOpt s0, step_rollover s0 t0 c0 hc0 hr0⟩
  have hAc : (appendTrade (startNewCandle s0 t0.ts t0.price) t0).curTs
      = some (truncTs s0.deltaUs t0.ts) := by
    rw [appendTrade_curTs, startNewCandle_curTs]
  have hAd : (appendTrade (startNewCandle s0 t0.ts t0.price) t0).deltaUs
      = s0.deltaUs := by
    rw [appendTrade_deltaUs, startNewCandle_deltaUs]
  have hAt : (appendTrade (startNewCandle s0 t0.ts t0.price) t0).trades
      = [(t0.price, t0.size)] := by
    rw [appendTrade_trades, startNewCandle_trades, List.nil_append]
  have hin2 : ∀ u ∈ L, u.ts < truncTs s0.deltaUs t0.ts
      + (appendTrade (startNewCandle s0 t0.ts t0.price) t0).deltaUs := by
    rw [hAd]
    exact fun u hu => hin u (List.mem_cons_of_mem t0 hu)
  obtain ⟨hBt, hBc, hBd, hBout⟩ :=
    runAgg_inBucket L (appendTrade (startNewCandle s0 t0.ts t0.price) t0)
      (truncTs s0.deltaUs t0.ts) hAc hin2
  have hBt2 : (runAgg (appendTrade (startNewCandle s0 t0.ts t0.price) t0)
        L).1.trades = (t0 :: L).map (fun t => (t.price, t.size)) := by
    rw [hBt, hAt, List.singleton_append, List.map_cons]
  have hne : (runAgg (appendTrade (startNewCandle s0 t0.ts t0.price) t0)
        L).1.trades ≠ [] := by
    rw [hBt2, List.map_cons]
    exact fun hx => List.noConfusion hx
  have hv : sumSizes (runAgg (appendTrade (startNewCandle s0 t0.ts t0.price)
        t0) L).1.trades ≠ 0 := by
    rw [hBt2]
    exact hvol
  have hrollEnd : truncTs s0.deltaUs t0.ts
      + (runAgg (appendTrade (startNewCandle s0 t0.ts t0.price) t0)
          L).1.deltaUs ≤ tEnd.ts := by
    rw [hBd, hAd]
    exact hend
  have hstepEnd := step_rollover
    (runAgg (appendTrade (startNewCandle s0 t0.ts t0.price) t0) L).1 tEnd
    (truncTs s0.deltaUs t0.ts) hBc hrollEnd
  have hdp := finalizeOpt_eq
    (runAgg (appendTrade (startNewCandle s0 t0.ts t0.price) t0) L).1 hne hv
  have houts : (runAgg s0 (t0 :: (L ++ [tEnd]))).2
      = o.toList
        ++ ((runAgg (appendTrade (startNewCandle s0 t0.ts t0.price) t0) L).2
          ++ (runAgg (runAgg (appendTrade (startNewCandle s0 t0.ts t0.price)
              t0) L).1 [tEnd]).2) := by
    conv_lhs => rw [runAgg]
    rw [hstep0,
      runAgg_append L [tEnd] (appendTrade (startNewCandle s0 t0.ts t0.price) t0)]
  rw [houts, hBout, List.nil_append]
  have hlast : (runAgg (runAgg (appendTrade (startNewCandle s0 t0.ts
      t0.price) t0) L).1 [tEnd]).2
      = [{ symbol := (runAgg (appendTrade (startNewCandle s0 t0.ts t0.price)
            t0) L).1.symbol,
           timeframe := (runAgg (appendTrade (startNewCandle s0 t0.ts
            t0.price) t0) L).1.timeframeStr,
           tsUtc := (runAgg (appendTrade (startNewCandle s0 t0.ts t0.price)
            t0) L).1.curTs.getD 0,
           vwap8 := render8 (decDiv (sumPriceSize (runAgg (appendTrade
            (startNewCandle s0 t0.ts t0.price) t0) L).1.trades)
              (sumSizes (runAgg (appendTrade (startNewCandle s0 t0.ts
                t0.price) t0) L).1.trades)),
           vol8 := render8 (sumSizes (runAgg (appendTrade (startNewCandle s0
            t0.ts t0.price) t0) L).1.trades),
           last8 := render8 (runAgg (appendTrade (startNewCandle s0 t0.ts
            t0.price) t0) L).1.lastP,
           high8 := render8 (runAgg (appendTrade (startNewCandle s0 t0.ts
            t0.price) t0) L).1.highP,
           low8 := render8 (runAgg (appendTrade (startNewCandle s0 t0.ts
            t0.price) t0) L).1.lowP,
           open8 := render8 (runAgg (appendTrade (startNewCandle s0 t0.ts
            t0.price) t0) L).1.openP }] := by
    conv_lhs => rw [runAgg]
    rw [hstepEnd]
    simp only [runAgg, Option.toList_some, hdp]
    rfl
  rw [hlast, List.getLast?_concat, hBt2]
  rfl

/-- C1 witness: the specification's example — trades (50000, 1),
(50010, 2), (50005, 1.5) in one 1-minute bucket, closed by a trade at
the next minute — publishes VWAP 225027.5 / 4.5 → 50006.11111111
(8 fractional digits, scaled by 10^8).  Every intermediate context
rounding here is the identity except the division, which rounds
450055/9 to 18 significant digits. -/
theorem c1_witness :
    ((runAgg (initState "BTC/USD" "1m" 60000000)
        [{ ts := 0, price := 50000, size := 1 },
         { ts := 10000000, price := 50010, size := 2 },
         { ts := 20000000, price := 50005, size := 3/2 },
         { ts := 60000000, price := 50000, size := 1 }]).2.getLast?).map
      DataPoint.vwap8 = some 5000611111111 := by
  have e1 : decMul (50000 : ℚ) 1 = 50000 := by
    unfold decMul
    rw [show ((50000 : ℚ) * 1) = ((50000 : ℤ) : ℚ) from by norm_num,
      decRound18_intCast 50000 (by norm_num) (by norm_num)]
    norm_num
  have e2 : decMul (50010 : ℚ) 2 = 100020 := by
    unfold decMul
    rw [show ((50010 : ℚ) * 2) = ((100020 : ℤ) : ℚ) from by norm_num,
      decRound18_intCast 100020 (by norm_num) (by norm_num)]
    norm_num
  have e3 : decMul (50005 : ℚ) (3/2) = 150015/2 := by
    unfold decMul
    rw [show ((50005 : ℚ) * (3/2)) = ((750075 : ℤ) : ℚ) / 10 ^ (1 : ℕ) from by
        norm_num,
      decRound18_int_div_pow 750075 1 (by norm_num) (by norm_num)]
    norm_num
  have e4 : decAdd (50000 : ℚ) 100020 = 150020 := by
    unfold decAdd
    rw [show ((50000 : ℚ) + 100020) = ((150020 : ℤ) : ℚ) from by norm_num,
      decRound18_intCast 150020 (by norm_num) (by norm_num)]
    norm_num
  have e5 : decAdd (150020 : ℚ) (150015/2) = 450055/2 := by
    unfold decAdd
    rw [show ((150020 : ℚ) + 150015/2) = ((2250275 : ℤ) : ℚ) / 10 ^ (1 : ℕ)
        from by norm_num,
      decRound18_int_div_pow 2250275 1 (by norm_num) (by norm_num)]
    norm_num
  have e6 : decAdd (1 : ℚ) 2 = 3 := by
    unfold decAdd
    rw [show ((1 : ℚ) + 2) = ((3 : ℤ) : ℚ) from by norm_num,
      decRound18_intCast 3 (by norm_num) (by norm_num)]
    norm_num
  have e7 : decAdd (3 : ℚ) (3/2) = 9/2 := by
    unfold decAdd
    rw [show ((3 : ℚ) + 3/2) = ((45 : ℤ) : ℚ) / 10 ^ (1 : ℕ) from by norm_num,
      decRound18_int_div_pow 45 1 (by norm_num) (by norm_num)]
    norm_num
  have hmap : ((({ ts := 0, price := 50000, size := 1 } : Trade) ::
      [{ ts := 10000000, price := 50010, size := 2 },
       { ts := 20000000, price := 50005, size := 3/2 }]).map
        (fun t => (t.price, t.size)))
      = [((50000 : ℚ), (1 : ℚ)), (50010, 2), (50005, 3/2)] := rfl
  have hps : sumPriceSize [((50000 : ℚ), (1 : ℚ)), (50010, 2), (50005, 3/2)]
      = 450055/2 := by
    rw [sumPriceSize_eq, map_decMul_cons, map_decMul_cons, map_decMul_cons,
      map_decMul_nil, e1, e2, e3, decSumList_cons, foldl_decAdd_cons,
      foldl_decAdd_cons, foldl_decAdd_nil, e4, e5]
  have hsz : sumSizes [((50000 : ℚ), (1 : ℚ)), (50010, 2), (50005, 3/2)]
      = 9/2 := by
    rw [sumSizes_eq, map_snd_cons, map_snd_cons, map_snd_cons, map_snd_nil,
      decSumList_cons, foldl_decAdd_cons, foldl_decAdd_cons, foldl_decAdd_nil,
      e6, e7]
  have happ := c1_vwap_context_decimal (initState "BTC/USD" "1m" 60000000)
    { ts := 0, price := 50000, size := 1 }
    [{ ts := 10000000, price := 50010, size := 2 },
     { ts := 20000000, price := 50005, size := 3/2 }]
    { ts := 60000000, price := 50000, size := 1 }
    (Or.inl rfl) (by decide) (by decide) (by rw [hmap, hsz]; norm_num)
  rw [hmap, hps, hsz] at happ
  have hdiv : decDiv ((450055 : ℚ)/2) (9/2)
      = ((500061111111111111 : ℤ) : ℚ) * (10 : ℚ) ^ ((4 : ℤ) - 17) := by
    unfold decDiv
    rw [show ((450055 : ℚ)/2) / (9/2) = (450055 : ℚ)/9 from by norm_num]
    exact decRound18_eval (450055/9) 4 500061111111111111 (by norm_num)
      (by norm_num) (by norm_num)
      (by rw [show ((450055 : ℚ)/9) * (10 : ℚ) ^ ((17 : ℤ) - 4)
            = 4500550000000000000/9 from by norm_num, Int.floor_eq_iff]
          constructor <;> norm_num)
      (by norm_num)
  rw [hdiv] at happ
  have hrend : render8 (((500061111111111111 : ℤ) : ℚ)
      * (10 : ℚ) ^ ((4 : ℤ) - 17)) = 5000611111111 := by
    unfold render8
    rw [show (((500061111111111111 : ℤ) : ℚ) * (10 : ℚ) ^ ((4 : ℤ) - 17))
        * 100000000 = (500061111111111111 : ℚ) / 100000 from by norm_num]
    unfold roundHalfEven
    rw [show ⌊(500061111111111111 : ℚ) / 100000⌋ = 5000611111111 from by
      rw [Int.floor_eq_iff]
      constructor <;> norm_num]
    rw [if_pos (by norm_num)]
  rw [hrend] at happ
  exact happ

/-- C1 counterexample to the claim as stated: with trades
(10^10, 1) and (0.000000015, 1) in one bucket, the exact quotient is
5000000000.0000000075, which renders to ...01 at 8 fractional digits;
but the code's 18-significant-digit context rounds the numerator sum
10000000000.000000015 to 10^10 (`getcontext().prec = 18`), so the
published VWAP is 5000000000.00000000 — not the rendering of the exact
`Σ(price·size)/Σ(size)` over the bucket's trades. -/
theorem c1_counterexample_prec18_rounding :
    ((runAgg (initState "BTC/USD" "1m" 60000000)
        [{ ts := 0, price := 10000000000, size := 1 },
         { ts := 1000000, price := 15/1000000000, size := 1 },
         { ts := 60000000, price := 1, size := 1 }]).2.getLast?).map
      DataPoint.vwap8 = some 500000000000000000 ∧
    render8 (specExactVwap [(10000000000, 1), (15/1000000000, 1)])
      = 500000000000000001 ∧
    (500000000000000000 : ℤ) ≠ 500000000000000001 := by
  refine ⟨?_, ?_, by norm_num⟩
  · have f1 : decMul (10000000000 : ℚ) 1 = 10000000000 := by
      unfold decMul
      rw [show ((10000000000 : ℚ) * 1) = ((10000000000 : ℤ) : ℚ) from by
          norm_num,
        decRound18_intCast 10000000000 (by norm_num) (by norm_num)]
      norm_num
    have f2 : decMul ((15 : ℚ)/1000000000) 1 = 15/1000000000 := by
      unfold decMul
      rw [show (((15 : ℚ)/1000000000) * 1) = ((15 : ℤ) : ℚ) / 10 ^ (9 : ℕ)
          from by norm_num,
        decRound18_int_div_pow 15 9 (by norm_num) (by norm_num)]
      norm_num
    have f3 : decAdd (10000000000 : ℚ) (15/1000000000) = 10000000000 := by
      unfold decAdd
      have h := decRound18_eval ((10000000000 : ℚ) + 15/1000000000) 10
        100000000000000000 (by norm_num) (by norm_num) (by norm_num)
        (by rw [Int.floor_eq_iff]
            constructor <;> norm_num)
        (by norm_num)
      rw [h]
      norm_num
    have f4 : decAdd (1 : ℚ) 1 = 2 := by
      unfold decAdd
      rw [show ((1 : ℚ) + 1) = ((2 : ℤ) : ℚ) from by norm_num,
        decRound18_intCast 2 (by norm_num) (by norm_num)]
      norm_num
    have f5 : decDiv (10000000000 : ℚ) 2 = 5000000000 := by
      unfold decDiv
      rw [show ((10000000000 : ℚ) / 2) = ((5000000000 : ℤ) : ℚ) from by
          norm_num,
        decRound18_intCast 5000000000 (by norm_num) (by norm_num)]
      norm_num
    have hmap : ((({ ts := 0, price := 10000000000, size := 1 } : Trade) ::
        [{ ts := 1000000, price := 15/1000000000, size := 1 }]).map
          (fun t => (t.price, t.size)))
        = [((10000000000 : ℚ), (1 : ℚ)), ((15 : ℚ)/1000000000, 1)] := rfl
    have hps : sumPriceSize
        [((10000000000 : ℚ), (1 : ℚ)), ((15 : ℚ)/1000000000, 1)]
        = 10000000000 := by
      rw [sumPriceSize_eq, map_decMul_cons, map_decMul_cons, map_decMul_nil,
        f1, f2, decSumList_cons, foldl_decAdd_cons, foldl_decAdd_nil, f3]
    have hsz : sumSizes
        [((10000000000 : ℚ), (1 : ℚ)), ((15 : ℚ)/1000000000, 1)] = 2 := by
      rw [sumSizes_eq, map_snd_cons, map_snd_cons, map_snd_nil,
        decSumList_cons, foldl_decAdd_cons, foldl_decAdd_nil, f4]
    have happ := c1_vwap_context_decimal (initState "BTC/USD" "1m" 60000000)
      { ts := 0, price := 10000000000, size := 1 }
      [{ ts := 1000000, price := 15/1000000000, size := 1 }]
      { ts := 60000000, price := 1, size := 1 }
      (Or.inl rfl) (by decide) (by decide) (by rw [hmap, hsz]; norm_num)
    rw [hmap, hps, hsz, f5] at happ
    have hrend : render8 (5000000000 : ℚ) = 500000000000000000 := by
      unfold render8
      rw [show ((5000000000 : ℚ) * 100000000)
          = ((500000000000000000 : ℤ) : ℚ) from by norm_num,
        roundHalfEven_intCast]
    rw [hrend] at happ
    exact happ
  · have hx : specExactVwap [((10000000000 : ℚ), (1 : ℚ)),
        ((15 : ℚ)/1000000000, (1 : ℚ))] * 100000000
        = 2000000000000000003/4 := by
      norm_num [specExactVwap]
    unfold render8 roundHalfEven
    rw [hx]
    rw [show ⌊(2000000000000000003 : ℚ)/4⌋ = 500000000000000000 from by
      rw [Int.floor_eq_iff]
      constructor <;> norm_num]
    rw [if_neg (by norm_num), if_pos (by norm_num)]
    norm_num

end RTApp
